import Mathlib

/-
Verification of the VarAnnotator pipeline (scripts/annotate_variants_ensembl.py
and scripts/ensembl_client.py) against its natural-language specification.

The Python source is shallowly embedded: strings are `String`/`List Char`,
dictionaries are association lists with last-write-wins update, wall-clock
times and frequencies are `ℚ`, network responses are explicit oracles passed
as arguments, and the retry loops are either bounded recursions (mirroring
`for attempt in range(1, retries + 1)`) or fuel-indexed recursions (mirroring
`while True`).
-/

namespace VarAnnotator

/-! ## Allele normalizer (annotate_variants_ensembl.py, lines 78-99) -/

/-- Python `str.upper()` restricted to the ASCII alleles the script handles. -/
def upperStr (s : String) : String :=
  String.mk (s.data.map Char.toUpper)

/-- The shared-leading-character stripping loop of `normalize_alleles`:
`while len(ref) > 1 and len(alt) > 1 and ref[0] == alt[0]: ref, alt = ref[1:], alt[1:]`.
A list has length > 1 exactly when it has two cons cells. -/
def stripSharedLeading : List Char → List Char → List Char × List Char
  | c :: c2 :: r, d :: d2 :: a =>
      if c = d then stripSharedLeading (c2 :: r) (d2 :: a)
      else (c :: c2 :: r, d :: d2 :: a)
  | r, a => (r, a)

/-- The shared-trailing-character stripping loop of `normalize_alleles`
(`ref[-1] == alt[-1]`, drop the last of both while both lengths exceed 1),
realised by stripping shared leading characters of the reversals. -/
def stripSharedTrailing (r a : List Char) : List Char × List Char :=
  let p := stripSharedLeading r.reverse a.reverse
  (p.1.reverse, p.2.reverse)

/-- `normalize_alleles(ref, alt)`: uppercase both, strip the shared suffix
while both lengths exceed 1, then strip the shared prefix under the same
condition (annotate_variants_ensembl.py lines 78-92). -/
def normalize_alleles (ref alt : String) : String × String :=
  let r0 := (upperStr ref).data
  let a0 := (upperStr alt).data
  let p := stripSharedTrailing r0 a0
  let q := stripSharedLeading p.1 p.2
  (String.mk q.1, String.mk q.2)

/-- `complement_allele` uses `str.maketrans('ACGT-', 'TGCA-')`; `str.translate`
maps A↔T and C↔G, sends '-' to itself, and leaves every other character
unchanged (annotate_variants_ensembl.py lines 94-99). -/
def complementChar (c : Char) : Char :=
  if c = 'A' then 'T'
  else if c = 'C' then 'G'
  else if c = 'G' then 'C'
  else if c = 'T' then 'A'
  else c

/-- `complement_allele(allele)` applies the translation table position-wise. -/
def complement_allele (s : String) : String :=
  String.mk (s.data.map complementChar)

lemma stripSharedLeading_append (r a : List Char) :
    ∃ p, r = p ++ (stripSharedLeading r a).1 ∧ a = p ++ (stripSharedLeading r a).2 := by
  induction r, a using stripSharedLeading.induct with
  | case1 c2 r d d2 a ih =>
      obtain ⟨p, h1, h2⟩ := ih
      refine ⟨d :: p, ?_, ?_⟩
      · simp only [stripSharedLeading, if_pos rfl, List.cons_append]
        exact congrArg (d :: ·) h1
      · simp only [stripSharedLeading, if_pos rfl, List.cons_append]
        exact congrArg (d :: ·) h2
  | case2 c c2 r d d2 a h =>
      refine ⟨[], ?_, ?_⟩ <;> simp [stripSharedLeading, h]
  | case3 r a h =>
      refine ⟨[], ?_, ?_⟩ <;>
        rcases r with _ | ⟨c, _ | ⟨c2, r⟩⟩ <;> rcases a with _ | ⟨d, _ | ⟨d2, a⟩⟩ <;>
          first
            | exact (h _ _ _ _ _ _ rfl rfl).elim
            | rfl

lemma stripSharedLeading_ne_nil (r a : List Char) :
    (r ≠ [] → (stripSharedLeading r a).1 ≠ []) ∧
    (a ≠ [] → (stripSharedLeading r a).2 ≠ []) := by
  induction r, a using stripSharedLeading.induct with
  | case1 c2 r d d2 a ih =>
      simp only [stripSharedLeading, if_pos rfl]
      exact ⟨fun _ => ih.1 (by simp), fun _ => ih.2 (by simp)⟩
  | case2 c c2 r d d2 a h =>
      simp [stripSharedLeading, h]
  | case3 r a h =>
      rcases r with _ | ⟨c, _ | ⟨c2, r⟩⟩ <;> rcases a with _ | ⟨d, _ | ⟨d2, a⟩⟩ <;>
        first
          | exact (h _ _ _ _ _ _ rfl rfl).elim
          | simp [stripSharedLeading]

lemma stripSharedTrailing_append (r a : List Char) :
    ∃ s, r = (stripSharedTrailing r a).1 ++ s ∧ a = (stripSharedTrailing r a).2 ++ s := by
  obtain ⟨p, h1, h2⟩ := stripSharedLeading_append r.reverse a.reverse
  refine ⟨p.reverse, ?_, ?_⟩
  · have := congrArg List.reverse h1
    simpa [stripSharedTrailing] using this
  · have := congrArg List.reverse h2
    simpa [stripSharedTrailing] using this

lemma stripBoth_append (r0 a0 : List Char) :
    ∃ p s,
      r0 = p ++ ((stripSharedLeading (stripSharedTrailing r0 a0).1 (stripSharedTrailing r0 a0).2).1 ++ s) ∧
      a0 = p ++ ((stripSharedLeading (stripSharedTrailing r0 a0).1 (stripSharedTrailing r0 a0).2).2 ++ s) := by
  obtain ⟨s, hs1, hs2⟩ := stripSharedTrailing_append r0 a0
  obtain ⟨p, hp1, hp2⟩ :=
    stripSharedLeading_append (stripSharedTrailing r0 a0).1 (stripSharedTrailing r0 a0).2
  refine ⟨p, s, ?_, ?_⟩
  · conv_lhs => rw [hs1]
    conv_lhs => rw [hp1]
    exact List.append_assoc _ _ _
  · conv_lhs => rw [hs2]
    conv_lhs => rw [hp2]
    exact List.append_assoc _ _ _

lemma stripSharedTrailing_ne_nil (r a : List Char) :
    (r ≠ [] → (stripSharedTrailing r a).1 ≠ []) ∧
    (a ≠ [] → (stripSharedTrailing r a).2 ≠ []) := by
  have h := stripSharedLeading_ne_nil r.reverse a.reverse
  constructor
  · intro hr
    have := h.1 (by simpa using hr)
    simpa [stripSharedTrailing] using this
  · intro ha
    have := h.2 (by simpa using ha)
    simpa [stripSharedTrailing] using this

/-- C8. `normalize_alleles` matches the spec: the documented concrete examples
hold, and in general the result pair arises from the uppercased inputs by
removing one shared prefix and one shared suffix (the same prefix and the same
suffix from both strings), never emptying a nonempty allele. -/
theorem normalize_alleles_spec :
    normalize_alleles "ACGT" "ACGA" = ("T", "A") ∧
    normalize_alleles "G" "T" = ("G", "T") ∧
    ∀ ref alt : String, ∃ p s : List Char,
      (upperStr ref).data = p ++ ((normalize_alleles ref alt).1.data ++ s) ∧
      (upperStr alt).data = p ++ ((normalize_alleles ref alt).2.data ++ s) ∧
      (ref ≠ "" → (normalize_alleles ref alt).1 ≠ "") ∧
      (alt ≠ "" → (normalize_alleles ref alt).2 ≠ "") := by
  refine ⟨by decide, by decide, fun ref alt => ?_⟩
  obtain ⟨p, s, h1, h2⟩ := stripBoth_append (upperStr ref).data (upperStr alt).data
  refine ⟨p, s, h1, h2, ?_, ?_⟩
  · intro href
    have hdata : ref.data ≠ [] := by
      intro hd
      apply href
      cases ref with
      | mk d => subst hd; rfl
    have hr0ne : (upperStr ref).data ≠ [] := by
      intro hcon
      apply hdata
      have hlen := congrArg List.length hcon
      simp only [upperStr, List.length_map, List.length_nil] at hlen
      exact List.eq_nil_of_length_eq_zero hlen
    have hstep1 := (stripSharedTrailing_ne_nil (upperStr ref).data (upperStr alt).data).1 hr0ne
    have hstep2 := (stripSharedLeading_ne_nil (stripSharedTrailing (upperStr ref).data (upperStr alt).data).1
      (stripSharedTrailing (upperStr ref).data (upperStr alt).data).2).1 hstep1
    intro hcon
    exact hstep2 (congrArg String.data hcon)
  · intro halt
    have hdata : alt.data ≠ [] := by
      intro hd
      apply halt
      cases alt with
      | mk d => subst hd; rfl
    have ha0ne : (upperStr alt).data ≠ [] := by
      intro hcon
      apply hdata
      have hlen := congrArg List.length hcon
      simp only [upperStr, List.length_map, List.length_nil] at hlen
      exact List.eq_nil_of_length_eq_zero hlen
    have hstep1 := (stripSharedTrailing_ne_nil (upperStr ref).data (upperStr alt).data).2 ha0ne
    have hstep2 := (stripSharedLeading_ne_nil (stripSharedTrailing (upperStr ref).data (upperStr alt).data).1
      (stripSharedTrailing (upperStr ref).data (upperStr alt).data).2).2 hstep1
    intro hcon
    exact hstep2 (congrArg String.data hcon)

/-- C8 witness: the general part of `normalize_alleles_spec` instantiated at
the concrete pair ("ACGT", "ACGA"). -/
theorem normalize_alleles_spec_witness :
    (normalize_alleles "ACGT" "ACGA").1 ≠ "" ∧ (normalize_alleles "ACGT" "ACGA").2 ≠ "" := by
  obtain ⟨p, s, _, _, h1, h2⟩ := normalize_alleles_spec.2.2 "ACGT" "ACGA"
  exact ⟨h1 (by decide), h2 (by decide)⟩

lemma complementChar_involutive (c : Char) : complementChar (complementChar c) = c := by
  by_cases hA : c = 'A'
  · subst hA; rfl
  · by_cases hC : c = 'C'
    · subst hC; rfl
    · by_cases hG : c = 'G'
      · subst hG; rfl
      · by_cases hT : c = 'T'
        · subst hT; rfl
        · simp [complementChar, hA, hC, hG, hT]

/-- C9. `complement_allele` realises the Watson-Crick complement: A↔T, C↔G,
the deletion marker '-' is fixed, `complement("ACGT") = "TGCA"`, and the map
is an involution on every string. -/
theorem complement_allele_spec :
    complementChar 'A' = 'T' ∧ complementChar 'T' = 'A' ∧
    complementChar 'C' = 'G' ∧ complementChar 'G' = 'C' ∧
    complementChar '-' = '-' ∧
    complement_allele "ACGT" = "TGCA" ∧
    ∀ x : String, complement_allele (complement_allele x) = x := by
  refine ⟨rfl, rfl, rfl, rfl, rfl, by decide, fun x => ?_⟩
  show String.mk ((x.data.map complementChar).map complementChar) = x
  rw [List.map_map]
  have hid : complementChar ∘ complementChar = id := funext complementChar_involutive
  rw [hid, List.map_id]

/-! ## REST transport (ensembl_client.py, lines 49-149)

`perform_rest_action` is a `for attempt in range(1, retries + 1)` loop; each
iteration issues one HTTP attempt whose outcome we model with an oracle
indexed by the attempt number.  `performIter attempt left` is the loop with
counter value `attempt` and `left + 1` iterations still allowed (so `left = 0`
means `attempt == retries`, the last iteration); `performIter _ 0` is the
state after the loop has exhausted its range, where control falls off the end
of the function and Python returns `None`. -/

/-- JSON values as returned by `json.loads`; `JVal.obj []` is Python's `{}`. -/
inductive JVal
  | obj (fields : List (String × JVal))
  | arr (items : List JVal)
  | str (s : String)
  | num (q : ℚ)
  | null

/-- One attempt's outcome as seen by the `try`/`except` of
`perform_rest_action`.  For `httpError`, `retryAfter = some q` models a
`Retry-After` header that parses as the float `q`; `none` models a missing or
unparseable header (both take the default sleep in the source). -/
inductive AttemptOutcome
  | success (body : Option JVal)
  | httpError (code : Nat) (retryAfter : Option ℚ)
  | urlError
  | otherExc

/-- The Python return value of `perform_rest_action`: a parsed JSON value, or
the implicit `None` produced by falling off the end of the retry loop. -/
inductive RestResult
  | json (v : JVal)
  | none

/-- Observable trace of one `perform_rest_action` call: the returned value,
the `time.sleep` durations in order, and the number of attempts executed. -/
structure RunTrace where
  result : RestResult
  sleeps : List ℚ
  attempts : Nat

/-- The status codes of the `elif e.code in [500, 502, 503, 504]` branch. -/
def retryableCodes : List Nat := [500, 502, 503, 504]

/-- The retry loop of `perform_rest_action` (ensembl_client.py lines 67-149).
Branches, in source order: success returns the parsed body (`{}` for an empty
body); 429 sleeps `Retry-After`-or-1 plus jitter and continues; 500/502/503/
504 sleeps `Retry-After`-or-`2**attempt` plus jitter and continues; 413
returns `{}` (the "reduce batch size" signal is only logged); any other
status returns `{}`; `URLError` and other exceptions sleep `2**attempt` plus
jitter and continue if `attempt < retries`, else return `{}`. -/
def performIter (oracle : Nat → AttemptOutcome) (jitter : Nat → ℚ) :
    Nat → Nat → RunTrace
  | _, 0 => ⟨.none, [], 0⟩
  | attempt, left + 1 =>
    match oracle attempt with
    | .success body => ⟨.json (body.getD (.obj [])), [], 1⟩
    | .httpError code ra =>
        if code = 429 then
          let rest := performIter oracle jitter (attempt + 1) left
          ⟨rest.result, (ra.getD 1 + jitter attempt) :: rest.sleeps, rest.attempts + 1⟩
        else if code ∈ retryableCodes then
          let rest := performIter oracle jitter (attempt + 1) left
          ⟨rest.result, (ra.getD ((2 : ℚ) ^ attempt) + jitter attempt) :: rest.sleeps,
            rest.attempts + 1⟩
        else if code = 413 then ⟨.json (.obj []), [], 1⟩
        else ⟨.json (.obj []), [], 1⟩
    | .urlError =>
        if left = 0 then ⟨.json (.obj []), [], 1⟩
        else
          let rest := performIter oracle jitter (attempt + 1) left
          ⟨rest.result, ((2 : ℚ) ^ attempt + jitter attempt) :: rest.sleeps, rest.attempts + 1⟩
    | .otherExc =>
        if left = 0 then ⟨.json (.obj []), [], 1⟩
        else
          let rest := performIter oracle jitter (attempt + 1) left
          ⟨rest.result, ((2 : ℚ) ^ attempt + jitter attempt) :: rest.sleeps, rest.attempts + 1⟩

/-- `perform_rest_action(..., retries)`: run the loop from attempt 1 with
`retries` iterations available. -/
def perform_rest_action (oracle : Nat → AttemptOutcome) (jitter : Nat → ℚ)
    (retries : Nat) : RunTrace :=
  performIter oracle jitter 1 retries

/-- Outcomes handled by a `continue` that consumes the current iteration
unconditionally: HTTP 429 and the retryable 5xx statuses. -/
def isRetryableHttp : AttemptOutcome → Prop
  | .httpError code _ => code = 429 ∨ code ∈ retryableCodes
  | _ => False

lemma performIter_all_retryable (oracle : Nat → AttemptOutcome) (jitter : Nat → ℚ) :
    ∀ left attempt, (∀ a, attempt ≤ a → a < attempt + left → isRetryableHttp (oracle a)) →
      (performIter oracle jitter attempt left).result = .none ∧
      (performIter oracle jitter attempt left).attempts = left := by
  intro left
  induction left with
  | zero => intro attempt _; exact ⟨rfl, rfl⟩
  | succ n ih =>
      intro attempt h
      have hcur : isRetryableHttp (oracle attempt) := h attempt le_rfl (by omega)
      have hrest := ih (attempt + 1) (fun a ha hb => h a (by omega) (by omega))
      cases hoc : oracle attempt with
      | success body => rw [hoc] at hcur; exact hcur.elim
      | urlError => rw [hoc] at hcur; exact hcur.elim
      | otherExc => rw [hoc] at hcur; exact hcur.elim
      | httpError code ra =>
          rw [hoc] at hcur
          rcases hcur with h429 | h5xx
          · subst h429
            simp only [performIter, hoc, if_pos rfl]
            exact ⟨hrest.1, by simpa using hrest.2⟩
          · by_cases h429' : code = 429
            · subst h429'
              simp only [performIter, hoc, if_pos rfl]
              exact ⟨hrest.1, by simpa using hrest.2⟩
            · simp only [performIter, hoc, if_neg h429', if_pos h5xx]
              exact ⟨hrest.1, by simpa using hrest.2⟩

lemma performIter_all_network (oracle : Nat → AttemptOutcome) (jitter : Nat → ℚ) :
    ∀ left attempt, 1 ≤ left →
      (∀ a, attempt ≤ a → a < attempt + left →
        oracle a = .urlError ∨ oracle a = .otherExc) →
      (performIter oracle jitter attempt left).result = .json (.obj []) := by
  intro left
  induction left with
  | zero => intro attempt h; omega
  | succ n ih =>
      intro attempt _ h
      by_cases hn : n = 0
      · subst hn
        rcases h attempt le_rfl (by omega) with hoc | hoc <;> simp [performIter, hoc]
      · have hrest := ih (attempt + 1) (by omega) (fun a ha hb => h a (by omega) (by omega))
        rcases h attempt le_rfl (by omega) with hoc | hoc <;>
          simp only [performIter, hoc, if_neg hn] <;> exact hrest

/-- C10. `perform_rest_action` has three distinct failure shapes: when every
one of the `retries` attempts hits a retryable HTTP status (429 or
500/502/503/504), the loop is exhausted by `continue` and the function falls
off its end, returning Python `None`; when network-level errors or other
exceptions exhaust the retries, it returns the empty dict `{}`; a
non-retryable HTTP status on the first attempt also returns `{}`; and `None`
is a different value from `{}`. -/
theorem perform_rest_action_failure_values :
    (∀ (oracle : Nat → AttemptOutcome) (jitter : Nat → ℚ) (retries : Nat),
      (∀ a, 1 ≤ a → a ≤ retries → isRetryableHttp (oracle a)) →
      (perform_rest_action oracle jitter retries).result = .none) ∧
    (∀ (oracle : Nat → AttemptOutcome) (jitter : Nat → ℚ) (retries : Nat),
      1 ≤ retries →
      (∀ a, 1 ≤ a → a ≤ retries → oracle a = .urlError ∨ oracle a = .otherExc) →
      (perform_rest_action oracle jitter retries).result = .json (.obj [])) ∧
    (∀ (oracle : Nat → AttemptOutcome) (jitter : Nat → ℚ) (retries : Nat) (code : Nat)
      (ra : Option ℚ),
      1 ≤ retries → oracle 1 = .httpError code ra →
      code ≠ 429 → code ∉ retryableCodes →
      (perform_rest_action oracle jitter retries).result = .json (.obj [])) ∧
    RestResult.none ≠ RestResult.json (.obj []) := by
  refine ⟨?_, ?_, ?_, fun h => RestResult.noConfusion h⟩
  · intro oracle jitter retries h
    exact (performIter_all_retryable oracle jitter retries 1
      (fun a ha hb => h a ha (by omega))).1
  · intro oracle jitter retries hret h
    exact performIter_all_network oracle jitter retries 1 hret
      (fun a ha hb => h a ha (by omega))
  · intro oracle jitter retries code ra hret hoc h429 h5xx
    obtain ⟨left, rfl⟩ : ∃ left, retries = left + 1 :=
      ⟨retries - 1, by omega⟩
    simp [perform_rest_action, performIter, hoc, h429, h5xx]

/-- C10 witness: concrete runs exhibiting all three failure values. -/
theorem perform_rest_action_failure_values_witness :
    (perform_rest_action (fun _ => .httpError 429 Option.none) (fun _ => 0) 3).result =
      .none ∧
    (perform_rest_action (fun _ => .urlError) (fun _ => 0) 3).result = .json (.obj []) ∧
    (perform_rest_action (fun _ => .httpError 404 Option.none) (fun _ => 0) 3).result =
      .json (.obj []) := by
  refine ⟨?_, ?_, ?_⟩
  · exact perform_rest_action_failure_values.1 (fun _ => .httpError 429 Option.none)
      (fun _ => 0) 3 (fun a _ _ => by simp [isRetryableHttp])
  · exact perform_rest_action_failure_values.2.1 (fun _ => .urlError) (fun _ => 0) 3
      (by omega) (fun a _ _ => Or.inl rfl)
  · exact perform_rest_action_failure_values.2.2.1 (fun _ => .httpError 404 Option.none)
      (fun _ => 0) 3 404 Option.none (by omega) rfl (by omega) (by decide)

lemma performIter_all_429 (oracle : Nat → AttemptOutcome) (jitter : Nat → ℚ)
    (raF : Nat → Option ℚ) :
    ∀ left attempt,
      (∀ a, attempt ≤ a → a < attempt + left → oracle a = .httpError 429 (raF a)) →
      performIter oracle jitter attempt left =
        ⟨.none, (List.range' attempt left).map (fun a => (raF a).getD 1 + jitter a), left⟩ := by
  intro left
  induction left with
  | zero => intro attempt _; rfl
  | succ n ih =>
      intro attempt h
      have hoc : oracle attempt = .httpError 429 (raF attempt) := h attempt le_rfl (by omega)
      have hrest := ih (attempt + 1) (fun a ha hb => h a (by omega) (by omega))
      simp [performIter, hoc, hrest, List.range'_succ]

/-- C5 counterexample: with attempt ceiling 2, a response sequence consisting
entirely of HTTP 429s makes `perform_rest_action` stop after exactly 2
attempts (each 429 consumed one loop iteration) and give up, returning the
implicit `None` — so a 429 does count toward the configured attempt ceiling
and the call does not retry past it. -/
theorem http429_gives_up_at_ceiling :
    (perform_rest_action (fun _ => .httpError 429 Option.none) (fun _ => 0) 2).attempts = 2 ∧
    (perform_rest_action (fun _ => .httpError 429 Option.none) (fun _ => 0) 2).result =
      .none ∧
    (perform_rest_action (fun _ => .httpError 429 Option.none) (fun _ => 0) 2).sleeps =
      [1 + 0, 1 + 0] :=
  ⟨rfl, rfl, rfl⟩

/-- C5 amended. An attempt that receives HTTP 429 sleeps for the parsed
`Retry-After` value if present, else the default 1 second, plus jitter, and
then retries — but the 429 consumes one of the `retries` loop iterations like
any other retryable failure, so a response sequence consisting entirely of
429s exhausts the ceiling after exactly `retries` attempts, sleeping once per
attempt, and returns the implicit `None`. -/
theorem http429_retry_behavior (oracle : Nat → AttemptOutcome) (jitter : Nat → ℚ)
    (raF : Nat → Option ℚ) (retries : Nat)
    (h : ∀ a, 1 ≤ a → a ≤ retries → oracle a = .httpError 429 (raF a)) :
    perform_rest_action oracle jitter retries =
      ⟨.none, (List.range' 1 retries).map (fun a => (raF a).getD 1 + jitter a), retries⟩ :=
  performIter_all_429 oracle jitter raF retries 1 (fun a ha hb => h a ha (by omega))

/-- C5 witness: the amended theorem applied to a concrete all-429 oracle
carrying `Retry-After: 0.5`, a ceiling of 2, and jitter 1/4. -/
theorem http429_retry_behavior_witness :
    perform_rest_action (fun _ => .httpError 429 (some (1 / 2))) (fun _ => 1 / 4) 2 =
      ⟨.none, [3 / 4, 3 / 4], 2⟩ := by
  have h := http429_retry_behavior (fun _ => .httpError 429 (some (1 / 2)))
    (fun _ => 1 / 4) (fun _ => some (1 / 2)) 2 (fun a _ _ => rfl)
  rw [h]
  norm_num [List.range']

/-- C6 counterexample: the run that receives HTTP 413 on its first attempt
returns exactly the same value (the empty dict `{}`), with the same trace, as
the run whose first attempt succeeds with an empty response body — the
"reduce batch size" condition is only logged and is not distinguishable from
an empty-body success by the returned value. -/
theorem http413_equals_empty_success :
    perform_rest_action (fun _ => .httpError 413 Option.none) (fun _ => 0) 5 =
      perform_rest_action (fun _ => .success Option.none) (fun _ => 0) 5 :=
  rfl

/-- C6 amended. A request whose first attempt receives HTTP 413 returns
failure immediately: no sleep, exactly one attempt, returning `{}` (the
"reduce batch size" advice is emitted only to the log); this returned value
is identical to — not distinguishable from — the `{}` produced by a
successful response with an empty body. -/
theorem http413_immediate_return (oracle : Nat → AttemptOutcome) (jitter : Nat → ℚ)
    (retries : Nat) (ra : Option ℚ)
    (hret : 1 ≤ retries) (hoc : oracle 1 = .httpError 413 ra) :
    perform_rest_action oracle jitter retries = ⟨.json (.obj []), [], 1⟩ ∧
    perform_rest_action oracle jitter retries =
      perform_rest_action (fun _ => .success Option.none) jitter retries := by
  obtain ⟨left, rfl⟩ : ∃ left, retries = left + 1 := ⟨retries - 1, by omega⟩
  have h1 : perform_rest_action oracle jitter (left + 1) = ⟨.json (.obj []), [], 1⟩ := by
    simp [perform_rest_action, performIter, hoc, retryableCodes]
  have h2 : perform_rest_action (fun _ => .success Option.none) jitter (left + 1) =
      ⟨.json (.obj []), [], 1⟩ := by
    simp [perform_rest_action, performIter]
  exact ⟨h1, h1.trans h2.symm⟩

/-- C6 witness: the amended theorem applied to a concrete oracle that answers
413 on every attempt, ceiling 5. -/
theorem http413_immediate_return_witness :
    perform_rest_action (fun _ => .httpError 413 Option.none) (fun _ => 0) 5 =
      ⟨.json (.obj []), [], 1⟩ :=
  (http413_immediate_return (fun _ => .httpError 413 Option.none) (fun _ => 0) 5
    Option.none (by omega) rfl).1

/-! ## Rate limiter (ensembl_client.py, lines 28-47)

`_check_rate_limit` runs entirely inside the class-level lock (the lock is
held across the sleep), so calls are serialised.  `now` is `time.time()` on
entry; the sleep is modelled as exact, so `time.time()` after sleeping
`sleep_time` is `now + sleep_time`, which is both the admit time and the new
`_last_reset`. -/

/-- The class-level shared state `(_req_count, _last_reset)`. -/
structure RLState where
  reqCount : Nat
  lastReset : ℚ

/-- Result of one `_check_rate_limit()` call: the new shared state and the
time at which the caller is admitted (returns from the call). -/
structure AcquireStep where
  state : RLState
  admitTime : ℚ

/-- `_check_rate_limit` with cap `N = reqs_per_sec`: if `elapsed >= 1`, reset
the counter and the window anchor; then if the counter is below the cap,
increment and admit at `now`; otherwise sleep `1 - elapsed` (when positive),
set the counter to 1 and the anchor to the post-sleep clock, and admit. -/
def check_rate_limit (N : Nat) (s : RLState) (now : ℚ) : AcquireStep :=
  let elapsed := now - s.lastReset
  let s1 := if 1 ≤ elapsed then (⟨0, now⟩ : RLState) else s
  if s1.reqCount < N then ⟨⟨s1.reqCount + 1, s1.lastReset⟩, now⟩
  else
    let sleepTime := 1 - elapsed
    let tAdm := if 0 < sleepTime then now + sleepTime else now
    ⟨⟨1, tAdm⟩, tAdm⟩

/-- Serialised acquire sequence: each caller enters `d` after the previous
caller was admitted (the lock is held across the sleep, so the next caller
cannot enter earlier); returns the list of admit times. -/
def runAcquires (N : Nat) : RLState → ℚ → List ℚ → List ℚ
  | _, _, [] => []
  | s, now, d :: ds =>
      let step := check_rate_limit N s (now + d)
      step.admitTime :: runAcquires N step.state step.admitTime ds

lemma check_rate_limit_reset (N : Nat) (s : RLState) (now : ℚ)
    (h1 : 1 ≤ now - s.lastReset) (hN : 0 < N) :
    check_rate_limit N s now = ⟨⟨1, now⟩, now⟩ := by
  simp [check_rate_limit, h1, hN]

lemma check_rate_limit_below (N : Nat) (s : RLState) (now : ℚ)
    (h1 : ¬1 ≤ now - s.lastReset) (hc : s.reqCount < N) :
    check_rate_limit N s now = ⟨⟨s.reqCount + 1, s.lastReset⟩, now⟩ := by
  simp [check_rate_limit, h1, hc]

lemma check_rate_limit_at_cap (N : Nat) (s : RLState) (now : ℚ)
    (h1 : ¬1 ≤ now - s.lastReset) (hc : ¬s.reqCount < N) :
    check_rate_limit N s now = ⟨⟨1, s.lastReset + 1⟩, s.lastReset + 1⟩ := by
  have hpos : 0 < 1 - (now - s.lastReset) := by
    have := lt_of_not_le h1
    linarith
  have hadmit : now + (1 - (now - s.lastReset)) = s.lastReset + 1 := by ring
  simp [check_rate_limit, h1, hc, hpos, hadmit]

lemma runAcquires_fill (N : Nat) (t0 : ℚ) :
    ∀ m c : Nat, c + m = N →
      runAcquires N ⟨c, t0⟩ t0 (List.replicate (m + 1) 0) =
        List.replicate m t0 ++ [t0 + 1] := by
  intro m
  induction m with
  | zero =>
      intro c hc
      have hcN : ¬c < N := by omega
      have h1 : ¬(1 : ℚ) ≤ t0 - t0 := by norm_num
      show (check_rate_limit N ⟨c, t0⟩ (t0 + 0)).admitTime :: [] = [t0 + 1]
      rw [add_zero, check_rate_limit_at_cap N ⟨c, t0⟩ t0 h1 hcN]
  | succ m ih =>
      intro c hc
      have hcN : c < N := by omega
      have h1 : ¬(1 : ℚ) ≤ t0 - t0 := by norm_num
      show (check_rate_limit N ⟨c, t0⟩ (t0 + 0)).admitTime ::
          runAcquires N (check_rate_limit N ⟨c, t0⟩ (t0 + 0)).state
            (check_rate_limit N ⟨c, t0⟩ (t0 + 0)).admitTime (List.replicate (m + 1) 0) =
        List.replicate (m + 1) t0 ++ [t0 + 1]
      rw [add_zero, check_rate_limit_below N ⟨c, t0⟩ t0 h1 hcN]
      show t0 :: runAcquires N ⟨c + 1, t0⟩ t0 (List.replicate (m + 1) 0) =
        List.replicate (m + 1) t0 ++ [t0 + 1]
      rw [ih (c + 1) (by omega), List.replicate_succ, List.cons_append]

/-- C4. The rate limiter's window discipline, as implemented: (reset) when the
window has elapsed the counter resets and the caller is admitted at once with
the counter at 1; (below cap) within the window a caller below the cap is
admitted immediately and the counter increments; (at cap) a caller at the cap
sleeps exactly the remaining window time and is admitted alone at
`lastReset + 1` with the counter reset to 1; consequently `N + 1` back-to-back
`acquire()` calls entering a fresh window at `t0` admit the first `N` at `t0`
and block the `(N+1)`th until the window rolls over at `t0 + 1` — at most `N`
admissions occur inside the window anchored at the last reset. -/
theorem rate_limiter_window_cap :
    (∀ (N : Nat) (s : RLState) (now : ℚ), 1 ≤ now - s.lastReset → 0 < N →
      check_rate_limit N s now = ⟨⟨1, now⟩, now⟩) ∧
    (∀ (N : Nat) (s : RLState) (now : ℚ), ¬1 ≤ now - s.lastReset → s.reqCount < N →
      check_rate_limit N s now = ⟨⟨s.reqCount + 1, s.lastReset⟩, now⟩) ∧
    (∀ (N : Nat) (s : RLState) (now : ℚ), ¬1 ≤ now - s.lastReset → ¬s.reqCount < N →
      check_rate_limit N s now = ⟨⟨1, s.lastReset + 1⟩, s.lastReset + 1⟩) ∧
    (∀ (N : Nat) (t0 : ℚ), 1 ≤ N →
      runAcquires N ⟨0, t0⟩ t0 (List.replicate (N + 1) 0) =
        List.replicate N t0 ++ [t0 + 1]) :=
  ⟨check_rate_limit_reset, check_rate_limit_below, check_rate_limit_at_cap,
    fun N t0 _ => runAcquires_fill N t0 N 0 (by omega)⟩

/-- C4 witness: cap 2, fresh window at time 0, three back-to-back acquires:
the first two admit at 0, the third at 1. -/
theorem rate_limiter_window_cap_witness :
    runAcquires 2 ⟨0, 0⟩ 0 (List.replicate 3 0) = [0, 0, 1] := by
  have h := rate_limiter_window_cap.2.2.2 2 0 (by omega)
  simpa using h

/-! ## Pipeline (annotate_variants_ensembl.py, `process_vcf`, lines 223-413)

The network is abstracted by the data the completed batch futures delivered:
`vepResponses` is the concatenation, in arrival order, of the VEP response
lists of the batches that returned data (a batch that failed or returned
nothing is skipped by `if not vep_responses: continue` and contributes no
elements); `freqData` is likewise the sequence of
`(dbsnp_id, responses.get(dbsnp_id, {}))` pairs processed by the frequency
stage. -/

/-- One parsed input record: `record.CHROM`, `record.POS`, `record.REF`,
`record.ALT[0]`, and the DP sample value when the FORMAT has one. -/
structure VariantRecord where
  chrom : String
  pos : Nat
  ref : String
  alt : String
  dp : Option String

/-- The canonical VEP query `f"{chrom} {pos} . {ref} {alt} . . ."` (line 248). -/
def vepInput (r : VariantRecord) : String :=
  r.chrom ++ " " ++ toString r.pos ++ " . " ++ r.ref ++ " " ++ r.alt ++ " . . ."

/-- Python dict assignment `m[k] = v` on an association list: replace the
binding in place if the key exists, else append. -/
def dictSet {α : Type} : List (String × α) → String → α → List (String × α)
  | [], k, v => [(k, v)]
  | (q, w) :: m, k, v => if q = k then (k, v) :: m else (q, w) :: dictSet m k v

/-- Python `m.get(k)`. -/
def dictGet {α : Type} : List (String × α) → String → Option α
  | [], _ => Option.none
  | (q, w) :: m, k => if q = k then some w else dictGet m k

/-- `record_map[vep_input] = idx` accumulated over the enumerated records
(lines 241-251); a duplicated query string silently overwrites the earlier
index. -/
def buildRecordMap (records : List VariantRecord) : List (String × Nat) :=
  records.enum.foldl (fun m p => dictSet m (vepInput p.2) p.1) []

/-- One VEP response object, reduced to the keys `process_vcf` reads:
`input`, the `id` of each colocated variant, and the `gene_symbol` of each
transcript consequence (each `.get(...)`, hence optional). -/
structure VepResponse where
  input : Option String
  colocated_variants : List (Option String)
  transcript_consequences : List (Option String)

/-- Python `needle_prefix.startswith` helper: Boolean character-list prefix
test (`str.startswith` semantics on the ASCII data the script handles). -/
def isPrefOf : List Char → List Char → Bool
  | [], _ => true
  | _ :: _, [] => false
  | c :: cs, d :: ds => c == d && isPrefOf cs ds

/-- `s.startswith(p)`. -/
def strStartsWith (s p : String) : Bool := isPrefOf p.data s.data

/-- dbSNP id extraction (lines 291-301): the first colocated variant whose id
is truthy and starts with `'rs'`, else the sentinel `'.'`. -/
def extractDbsnpId (cvs : List (Option String)) : String :=
  match cvs.find? (fun o =>
    match o with
    | some s => !s.data.isEmpty && strStartsWith s "rs"
    | Option.none => false) with
  | some (some s) => s
  | _ => "."

/-- Gene annotation extraction (lines 304-314): default `"Intergenic"`, else
the first transcript with a truthy `gene_symbol`. -/
def extractGene (txs : List (Option String)) : String :=
  match txs.find? (fun o =>
    match o with
    | some s => !s.data.isEmpty
    | Option.none => false) with
  | some (some s) => s
  | _ => "Intergenic"

/-- `record_map.get(response.get('input'))`: the input index a VEP response
is attributed to, if any. -/
def vepRespIdx (rmap : List (String × Nat)) (resp : VepResponse) : Option Nat :=
  match resp.input with
  | some s => dictGet rmap s
  | Option.none => Option.none

/-- Processing one VEP response inside the `as_completed` loop (lines
284-314): unknown inputs are logged and skipped, otherwise the dbSNP id and
gene annotation are written at the originating index. -/
def applyVepResponse (rmap : List (String × Nat)) (st : List String × List String)
    (resp : VepResponse) : List String × List String :=
  match vepRespIdx rmap resp with
  | Option.none => st
  | some idx =>
      (st.1.set idx (extractDbsnpId resp.colocated_variants),
       st.2.set idx (extractGene resp.transcript_consequences))

/-- All VEP responses of all completed batches, in arrival order. -/
def applyVepResponses (rmap : List (String × Nat)) (st : List String × List String)
    (resps : List VepResponse) : List String × List String :=
  resps.foldl (applyVepResponse rmap) st

/-- One entry of a variant's `populations` list, reduced to the keys read:
`pop.get('population')` and `pop.get('frequency')`. -/
structure PopEntry where
  population : Option String
  frequency : Option ℚ

/-- `responses.get(dbsnp_id, {})` as tested by
`if not variant_data or variant_data == "N/A"` (lines 350-354): a falsy
value, the literal string "N/A", or a dict whose `populations` default to
`[]`. -/
inductive VariantData
  | missing
  | na
  | dataObj (populations : List PopEntry)

/-- A value of the `frequencies` dict: `"N/A"`, or the pair serialised as
`f"{max_freq} ({max_population})"`. -/
inductive FreqResult
  | na
  | freq (value : ℚ) (population : String)

/-- The max-selection loop over `populations` (lines 355-363): a population
whose name is in `target_populations` (a `None` name never is) and whose
frequency is present replaces the running maximum exactly when strictly
greater. -/
def maxStep (targets : List String) (acc : Option ℚ × Option String) (pop : PopEntry) :
    Option ℚ × Option String :=
  match pop.population, pop.frequency with
  | some name, some f =>
      if name ∈ targets then
        match acc.1 with
        | Option.none => (some f, some name)
        | some m => if m < f then (some f, some name) else acc
      else acc
  | _, _ => acc

/-- The loop body folded over the whole `populations` list, starting from
`max_freq = None, max_population = None`. -/
def selectMaxFreq (targets : List String) (pops : List PopEntry) :
    Option ℚ × Option String :=
  pops.foldl (maxStep targets) (Option.none, Option.none)

/-- Lines 350-367: resolve one variant's frequency entry. -/
def resolveVariantData (targets : List String) (vd : VariantData) : FreqResult :=
  match vd with
  | .missing => .na
  | .na => .na
  | .dataObj pops =>
      match selectMaxFreq targets pops with
      | (some f, some n) => .freq f n
      | _ => .na

/-- The `frequencies` dict accumulated over the processed (id, data) pairs. -/
def buildFrequencies (targets : List String) (freqData : List (String × VariantData)) :
    List (String × FreqResult) :=
  freqData.foldl (fun m p => dictSet m p.1 (resolveVariantData targets p.2)) []

/-- One emitted TSV row (lines 382-397). -/
structure OutputRow where
  chrom : String
  pos : Nat
  id : String
  ref : String
  alt : String
  gene : String
  frequency : FreqResult
  dp : String

/-- The emission loop (lines 382-397): one row per enumerated record; the
frequency cell is `frequencies.get(dbsnp_id, "N/A") if dbsnp_id != '.' else
"N/A"`. -/
def emitRows (records : List VariantRecord) (ids genes : List String)
    (freqs : List (String × FreqResult)) : List OutputRow :=
  records.enum.map (fun p =>
    let dbsnp := ids.getD p.1 "."
    { chrom := p.2.chrom, pos := p.2.pos, id := dbsnp, ref := p.2.ref, alt := p.2.alt,
      gene := genes.getD p.1 "Intergenic",
      frequency := if dbsnp ≠ "." then (dictGet freqs dbsnp).getD .na else .na,
      dp := p.2.dp.getD "NA" })

/-- `process_vcf` as a function of the parsed records and the service data
the two stages received: build the record map, initialise the per-index
arrays with the sentinels `'.'` and `'Intergenic'`, apply the VEP responses,
build the frequencies dict, and emit the rows. -/
def process_vcf (records : List VariantRecord) (vepResponses : List VepResponse)
    (freqData : List (String × VariantData)) (targets : List String) : List OutputRow :=
  let rmap := buildRecordMap records
  let init : List String × List String :=
    (List.replicate records.length ".", List.replicate records.length "Intergenic")
  let st := applyVepResponses rmap init vepResponses
  emitRows records st.1 st.2 (buildFrequencies targets freqData)

/-- One iteration's observable outcome in the `while True` loop of
`fetch_population_frequencies_batch` (lines 139-162): the value returned by
`perform_rest_action`, or an exception caught by the `except` clause. -/
inductive FetchOutcome
  | resp (r : RestResult)
  | exc

/-- The `while True` loop of `fetch_population_frequencies_batch`, observed
for `fuel` iterations starting at iteration `k`: `some v` means the call
returned the non-empty response `v` within the observed iterations, `none`
means it was still looping after all of them.  `None` responses, `{}`
responses and exceptions all `continue`. -/
def fetchPopLoop (oracle : Nat → FetchOutcome) : Nat → Nat → Option JVal
  | 0, _ => Option.none
  | fuel + 1, k =>
      match oracle k with
      | .exc => fetchPopLoop oracle fuel (k + 1)
      | .resp .none => fetchPopLoop oracle fuel (k + 1)
      | .resp (.json v) =>
          match v with
          | .obj [] => fetchPopLoop oracle fuel (k + 1)
          | _ => some v

/-- An iteration outcome on which the loop keeps retrying: an exception, a
`None` return, or the empty dict. -/
def emptyFetchOutcome : FetchOutcome → Prop
  | .exc => True
  | .resp .none => True
  | .resp (.json (.obj [])) => True
  | .resp (.json _) => False

/-- `fetch_population_frequencies_batch` never returns, whatever the fuel. -/
def fetchPopLoopDiverges (oracle : Nat → FetchOutcome) : Prop :=
  ∀ fuel k, fetchPopLoop oracle fuel k = Option.none

lemma emitRows_length (records : List VariantRecord) (ids genes : List String)
    (freqs : List (String × FreqResult)) :
    (emitRows records ids genes freqs).length = records.length := by
  simp [emitRows]

lemma emitRows_getElem? (records : List VariantRecord) (ids genes : List String)
    (freqs : List (String × FreqResult)) (i : Nat) :
    (emitRows records ids genes freqs)[i]? = (records[i]?).map (fun r =>
      ({ chrom := r.chrom, pos := r.pos, id := ids.getD i ".", ref := r.ref, alt := r.alt,
         gene := genes.getD i "Intergenic",
         frequency := if ids.getD i "." ≠ "." then (dictGet freqs (ids.getD i ".")).getD .na
                      else .na,
         dp := r.dp.getD "NA" } : OutputRow)) := by
  rw [emitRows, List.getElem?_map,
    show records.enum = List.enumFrom 0 records from rfl, List.getElem?_enumFrom]
  cases records[i]? with
  | none => rfl
  | some r => simp

lemma emitRows_getElem?_some (records : List VariantRecord) (ids genes : List String)
    (freqs : List (String × FreqResult)) (i : Nat) (r : VariantRecord)
    (h : records[i]? = some r) :
    (emitRows records ids genes freqs)[i]? = some
      { chrom := r.chrom, pos := r.pos, id := ids.getD i ".", ref := r.ref, alt := r.alt,
        gene := genes.getD i "Intergenic",
        frequency := if ids.getD i "." ≠ "." then (dictGet freqs (ids.getD i ".")).getD .na
                     else .na,
        dp := r.dp.getD "NA" } := by
  rw [emitRows_getElem? records ids genes freqs i, h]
  rfl

lemma applyVepResponses_untouched (rmap : List (String × Nat)) :
    ∀ (resps : List VepResponse) (st : List String × List String) (i : Nat),
      (∀ resp ∈ resps, vepRespIdx rmap resp ≠ some i) →
      (applyVepResponses rmap st resps).1[i]? = st.1[i]? ∧
      (applyVepResponses rmap st resps).2[i]? = st.2[i]? := by
  intro resps
  induction resps with
  | nil => intro st i h; exact ⟨rfl, rfl⟩
  | cons r rs ih =>
      intro st i h
      have hr : vepRespIdx rmap r ≠ some i := h r (by simp)
      have hrest := ih (applyVepResponse rmap st r) i (fun q hq => h q (by simp [hq]))
      have hstep : (applyVepResponse rmap st r).1[i]? = st.1[i]? ∧
          (applyVepResponse rmap st r).2[i]? = st.2[i]? := by
        cases hidx : vepRespIdx rmap r with
        | none => simp [applyVepResponse, hidx]
        | some j =>
            have hj : j ≠ i := fun hji => hr (by rw [hidx, hji])
            simp [applyVepResponse, hidx, List.getElem?_set_ne hj]
      exact ⟨hrest.1.trans hstep.1, hrest.2.trans hstep.2⟩

lemma getElem?_some_lt {α : Type} {l : List α} {i : Nat} {a : α}
    (h : l[i]? = some a) : i < l.length := by
  by_contra hn
  rw [List.getElem?_eq_none (le_of_not_lt hn)] at h
  exact Option.noConfusion h

/-- C1. For every input sequence of records and whatever data the two service
stages deliver, a completed `process_vcf` run emits exactly one output row per
input record, in input order (row `i` carries record `i`'s CHROM/POS/REF/ALT
and DP cell); a record none of the VEP responses map to keeps the sentinel
values `'.'`, `'Intergenic'` and `'N/A'` in its row rather than being
dropped. -/
theorem process_vcf_one_row_per_variant (records : List VariantRecord)
    (vepResponses : List VepResponse) (freqData : List (String × VariantData))
    (targets : List String) :
    (process_vcf records vepResponses freqData targets).length = records.length ∧
    (∀ (i : Nat) (r : VariantRecord), records[i]? = some r →
      ∃ row : OutputRow,
        (process_vcf records vepResponses freqData targets)[i]? = some row ∧
        row.chrom = r.chrom ∧ row.pos = r.pos ∧ row.ref = r.ref ∧ row.alt = r.alt ∧
        row.dp = r.dp.getD "NA") ∧
    (∀ (i : Nat) (r : VariantRecord), records[i]? = some r →
      (∀ resp ∈ vepResponses, vepRespIdx (buildRecordMap records) resp ≠ some i) →
      ∃ row : OutputRow,
        (process_vcf records vepResponses freqData targets)[i]? = some row ∧
        row.id = "." ∧ row.gene = "Intergenic" ∧ row.frequency = FreqResult.na) := by
  refine ⟨emitRows_length records _ _ _, ?_, ?_⟩
  · intro i r hrec
    exact ⟨_, emitRows_getElem?_some records
      (applyVepResponses (buildRecordMap records)
        (List.replicate records.length ".", List.replicate records.length "Intergenic")
        vepResponses).1
      (applyVepResponses (buildRecordMap records)
        (List.replicate records.length ".", List.replicate records.length "Intergenic")
        vepResponses).2
      (buildFrequencies targets freqData) i r hrec, rfl, rfl, rfl, rfl, rfl⟩
  · intro i r hrec hv
    have hi : i < records.length := getElem?_some_lt hrec
    obtain ⟨hu1, hu2⟩ := applyVepResponses_untouched (buildRecordMap records) vepResponses
      (List.replicate records.length ".", List.replicate records.length "Intergenic") i hv
    have hid : (applyVepResponses (buildRecordMap records)
        (List.replicate records.length ".", List.replicate records.length "Intergenic")
        vepResponses).1.getD i "." = "." := by
      rw [List.getD_eq_getElem?_getD, hu1]
      simp [List.getElem?_replicate_of_lt hi]
    have hgene : (applyVepResponses (buildRecordMap records)
        (List.replicate records.length ".", List.replicate records.length "Intergenic")
        vepResponses).2.getD i "Intergenic" = "Intergenic" := by
      rw [List.getD_eq_getElem?_getD, hu2]
      simp [List.getElem?_replicate_of_lt hi]
    refine ⟨_, emitRows_getElem?_some records
      (applyVepResponses (buildRecordMap records)
        (List.replicate records.length ".", List.replicate records.length "Intergenic")
        vepResponses).1
      (applyVepResponses (buildRecordMap records)
        (List.replicate records.length ".", List.replicate records.length "Intergenic")
        vepResponses).2
      (buildFrequencies targets freqData) i r hrec, hid, hgene, ?_⟩
    rw [hid]
    simp

/-- C1 witness: a single record, no service data at all — the run still emits
its one row, in place, fully sentinelled. -/
theorem process_vcf_one_row_per_variant_witness :
    ∃ row : OutputRow,
      (process_vcf [⟨"1", 5, "A", "T", Option.none⟩] [] [] [])[0]? = some row ∧
      row.id = "." ∧ row.gene = "Intergenic" ∧ row.frequency = FreqResult.na :=
  (process_vcf_one_row_per_variant [⟨"1", 5, "A", "T", Option.none⟩] [] [] []).2.2 0
    ⟨"1", 5, "A", "T", Option.none⟩ rfl (fun resp h => absurd h (List.not_mem_nil resp))

lemma dictGet_dictSet {α : Type} (m : List (String × α)) (k : String) (v : α) (q : String) :
    dictGet (dictSet m k v) q = if k = q then some v else dictGet m q := by
  induction m with
  | nil => simp [dictSet, dictGet]
  | cons p m ih =>
      obtain ⟨w, v2⟩ := p
      by_cases h1 : w = k
      · subst h1
        by_cases hq : w = q <;> simp [dictSet, dictGet, hq]
      · by_cases h2 : w = q
        · subst h2
          have hkw : k ≠ w := fun h => h1 h.symm
          simp [dictSet, dictGet, h1, hkw]
        · simp [dictSet, dictGet, h1, h2, ih]

/-- The index `record_map.get(q)` resolves to, written as a direct
keep-the-last fold over the enumerated records. -/
def lastIdx (records : List VariantRecord) (q : String) : Option Nat :=
  records.enum.foldl (fun a p => if vepInput p.2 = q then some p.1 else a) Option.none

lemma dictGet_buildFold (q : String) :
    ∀ (el : List (Nat × VariantRecord)) (m : List (String × Nat)),
      dictGet (el.foldl (fun m p => dictSet m (vepInput p.2) p.1) m) q =
        el.foldl (fun a p => if vepInput p.2 = q then some p.1 else a) (dictGet m q) := by
  intro el
  induction el with
  | nil => intro m; rfl
  | cons p el ih =>
      intro m
      rw [List.foldl_cons, List.foldl_cons, ih, dictGet_dictSet]

lemma foldIdx_valid (q : String) (P : Nat → Prop) :
    ∀ (el : List (Nat × VariantRecord)) (a : Option Nat),
      (∀ k, a = some k → P k) → (∀ p ∈ el, vepInput p.2 = q → P p.1) →
      ∀ k, el.foldl (fun a p => if vepInput p.2 = q then some p.1 else a) a = some k →
        P k := by
  intro el
  induction el with
  | nil => intro a ha _ k hk; exact ha k hk
  | cons p el ih =>
      intro a ha hel k hk
      rw [List.foldl_cons] at hk
      refine ih _ ?_ (fun p2 h2 => hel p2 (by simp [h2])) k hk
      intro k2 hk2
      by_cases hq : vepInput p.2 = q
      · rw [if_pos hq] at hk2
        cases hk2
        exact hel p (by simp) hq
      · rw [if_neg hq] at hk2
        exact ha k2 hk2

/-- C2 counterexample: two identical records produce the same canonical query
string; `record_map[vep_input] = idx` silently overwrites, so the map sends
the query to index 1 only, and running the pipeline with the service's
responses for that query attributes every result to index 1 while index 0
keeps its sentinel — the collision is silently merged, no caller-input error
occurs. -/
theorem record_map_silent_merge_counterexample :
    dictGet
        (buildRecordMap
          [⟨"1", 100, "A", "T", Option.none⟩, ⟨"1", 100, "A", "T", Option.none⟩])
        (vepInput ⟨"1", 100, "A", "T", Option.none⟩) = some 1 ∧
    (process_vcf [⟨"1", 100, "A", "T", Option.none⟩, ⟨"1", 100, "A", "T", Option.none⟩]
        [⟨some (vepInput ⟨"1", 100, "A", "T", Option.none⟩), [some "rs42"], []⟩,
         ⟨some (vepInput ⟨"1", 100, "A", "T", Option.none⟩), [some "rs42"], []⟩]
        [] []).map (fun row => row.id) = [".", "rs42"] :=
  ⟨rfl, rfl⟩

/-- C2 amended. Within one run the canonical query string maps back to at
most one input index, but by silent overwrite, not by rejecting collisions:
`record_map.get(q)` returns exactly the last input index whose record builds
`q` (so when two distinct indices share a query string, every response for it
is attributed to the later index and the earlier one keeps sentinels; no
caller-input error is raised), and any returned index is a real input index
whose record builds `q`. -/
theorem record_map_last_write_wins :
    (∀ (records : List VariantRecord) (q : String),
      dictGet (buildRecordMap records) q = lastIdx records q) ∧
    (∀ (records : List VariantRecord) (q : String) (k : Nat),
      lastIdx records q = some k →
        ∃ r : VariantRecord, records[k]? = some r ∧ vepInput r = q) := by
  constructor
  · intro records q
    exact dictGet_buildFold q records.enum []
  · intro records q k hlast
    refine foldIdx_valid q (fun k => ∃ r : VariantRecord, records[k]? = some r ∧ vepInput r = q)
      records.enum Option.none (fun _ h => Option.noConfusion h) ?_ k hlast
    intro p hp hq
    exact ⟨p.2, List.mem_enum_iff_getElem?.mp hp, hq⟩

/-- C2 witness: the amended theorem applied to the duplicated-record input of
the counterexample — the lookup is the last index, and that index is valid. -/
theorem record_map_last_write_wins_witness :
    dictGet
        (buildRecordMap
          [⟨"1", 100, "A", "T", Option.none⟩, ⟨"1", 100, "A", "T", Option.none⟩])
        (vepInput ⟨"1", 100, "A", "T", Option.none⟩) =
      lastIdx [⟨"1", 100, "A", "T", Option.none⟩, ⟨"1", 100, "A", "T", Option.none⟩]
        (vepInput ⟨"1", 100, "A", "T", Option.none⟩) ∧
    ∃ r : VariantRecord,
      ([⟨"1", 100, "A", "T", Option.none⟩, ⟨"1", 100, "A", "T", Option.none⟩] :
        List VariantRecord)[1]? = some r ∧
      vepInput r = vepInput ⟨"1", 100, "A", "T", Option.none⟩ :=
  ⟨record_map_last_write_wins.1 _ _,
   record_map_last_write_wins.2
     [⟨"1", 100, "A", "T", Option.none⟩, ⟨"1", 100, "A", "T", Option.none⟩]
     (vepInput ⟨"1", 100, "A", "T", Option.none⟩) 1 rfl⟩

/-! ### Frequency Resolver: comparison with the algorithm §4.5 of the spec
describes -/

/-- One frequency observation as the spec describes it: population name,
reported allele, frequency value. -/
structure SpecObservation where
  population : String
  allele : String
  frequency : ℚ

/-- Substring containment, Python `needle in hay`. -/
def hasSub (needle : List Char) : List Char → Bool
  | [] => needle.isEmpty
  | c :: rest => isPrefOf needle (c :: rest) || hasSub needle rest

/-- "whose population name contains any preferred substring". -/
def containsAnyPref (populs : List String) (name : String) : Bool :=
  populs.any (fun p => hasSub p.data name.data)

/-- "keep the one with the maximum frequency value; ties broken by first-seen
order": the running maximum is replaced only on strictly greater. -/
def firstMaxBy (obs : List SpecObservation) : Option SpecObservation :=
  obs.foldl (fun acc o =>
    match acc with
    | Option.none => some o
    | some m => if m.frequency < o.frequency then some o else acc) Option.none

/-- Acceptance set membership: the reported allele, uppercased, equals the
minimal alternate or its complement. -/
def alleleAccepted (minAlt : String) (o : SpecObservation) : Bool :=
  upperStr o.allele == minAlt || upperStr o.allele == complement_allele minAlt

/-- The Frequency Resolver algorithm exactly as §4.5 of the spec describes
it — acceptance set, preferred-population first pass, global second pass,
"not available" fallback.  Stated from the spec's words purely to be compared
against the code's `resolveVariantData`; the code implements none of it. -/
def resolveFrequencySpecModel (populs : List String) (minAlt : String)
    (obs : List SpecObservation) : FreqResult :=
  let matching := obs.filter (alleleAccepted minAlt)
  match firstMaxBy (matching.filter (fun o => containsAnyPref populs o.population)) with
  | some o => .freq o.frequency o.population
  | Option.none =>
      match firstMaxBy matching with
      | some o => .freq o.frequency o.population
      | Option.none => .na

/-- The condition under which the code's loop considers an observation:
population name present and exactly a member of the target list, frequency
present. -/
def qualifies (targets : List String) (p : PopEntry) : Prop :=
  (match p.population with
   | some n => n ∈ targets
   | Option.none => False) ∧ p.frequency ≠ Option.none

/-- Invariant of the running `(max_freq, max_population)` pair after the
entries `seen` have been processed. -/
def maxAccOk (targets : List String) (seen : List PopEntry)
    (acc : Option ℚ × Option String) : Prop :=
  (acc = (Option.none, Option.none) ∧ ∀ p ∈ seen, ¬qualifies targets p) ∨
  (∃ f n, acc = (some f, some n) ∧
    (∃ p ∈ seen, p.population = some n ∧ p.frequency = some f ∧ qualifies targets p) ∧
    ∀ q ∈ seen, qualifies targets q → ∀ g, q.frequency = some g → g ≤ f)

lemma maxAccOk_extend_nonqual (targets : List String) (seen : List PopEntry)
    (acc : Option ℚ × Option String) (p : PopEntry) (hnq : ¬qualifies targets p)
    (h : maxAccOk targets seen acc) : maxAccOk targets (seen ++ [p]) acc := by
  rcases h with ⟨hacc, hall⟩ | ⟨f, n, hacc, hwit, hmax⟩
  · refine Or.inl ⟨hacc, ?_⟩
    intro q hq
    rcases List.mem_append.mp hq with h1 | h1
    · exact hall q h1
    · simp only [List.mem_singleton] at h1
      subst h1
      exact hnq
  · refine Or.inr ⟨f, n, hacc, ?_, ?_⟩
    · obtain ⟨w, hw, h1, h2, h3⟩ := hwit
      exact ⟨w, List.mem_append_left _ hw, h1, h2, h3⟩
    · intro q hq hqual g hg
      rcases List.mem_append.mp hq with h1 | h1
      · exact hmax q h1 hqual g hg
      · simp only [List.mem_singleton] at h1
        subst h1
        exact absurd hqual hnq

lemma maxAccOk_step (targets : List String) (seen : List PopEntry)
    (acc : Option ℚ × Option String) (p : PopEntry) (h : maxAccOk targets seen acc) :
    maxAccOk targets (seen ++ [p]) (maxStep targets acc p) := by
  have hpmem : p ∈ seen ++ [p] := List.mem_append_right _ (by simp)
  cases hp : p.population with
  | none =>
      have hnq : ¬qualifies targets p := by simp [qualifies, hp]
      have hstep : maxStep targets acc p = acc := by
        cases hf : p.frequency <;> simp [maxStep, hp, hf]
      rw [hstep]
      exact maxAccOk_extend_nonqual targets seen acc p hnq h
  | some name =>
      cases hf : p.frequency with
      | none =>
          have hnq : ¬qualifies targets p := by simp [qualifies, hf]
          have hstep : maxStep targets acc p = acc := by simp [maxStep, hp, hf]
          rw [hstep]
          exact maxAccOk_extend_nonqual targets seen acc p hnq h
      | some f =>
          by_cases ht : name ∈ targets
          · have hqual : qualifies targets p := by simp [qualifies, hp, hf, ht]
            rcases h with ⟨hacc, hall⟩ | ⟨m, n, hacc, hwit, hmax⟩
            · have hstep : maxStep targets acc p = (some f, some name) := by
                rw [hacc]; simp [maxStep, hp, hf, ht]
              rw [hstep]
              refine Or.inr ⟨f, name, rfl, ⟨p, hpmem, hp, hf, hqual⟩, ?_⟩
              intro q hq hquala g hg
              rcases List.mem_append.mp hq with h1 | h1
              · exact absurd hquala (hall q h1)
              · simp only [List.mem_singleton] at h1
                subst h1
                rw [hf] at hg
                cases hg
                exact le_refl _
            · by_cases hlt : m < f
              · have hstep : maxStep targets acc p = (some f, some name) := by
                  rw [hacc]; simp [maxStep, hp, hf, ht, hlt]
                rw [hstep]
                refine Or.inr ⟨f, name, rfl, ⟨p, hpmem, hp, hf, hqual⟩, ?_⟩
                intro q hq hquala g hg
                rcases List.mem_append.mp hq with h1 | h1
                · exact le_of_lt (lt_of_le_of_lt (hmax q h1 hquala g hg) hlt)
                · simp only [List.mem_singleton] at h1
                  subst h1
                  rw [hf] at hg
                  cases hg
                  exact le_refl _
              · have hstep : maxStep targets acc p = acc := by
                  rw [hacc]; simp [maxStep, hp, hf, ht, hlt]
                rw [hstep]
                refine Or.inr ⟨m, n, hacc, ?_, ?_⟩
                · obtain ⟨w, hw, h1, h2, h3⟩ := hwit
                  exact ⟨w, List.mem_append_left _ hw, h1, h2, h3⟩
                · intro q hq hquala g hg
                  rcases List.mem_append.mp hq with h1 | h1
                  · exact hmax q h1 hquala g hg
                  · simp only [List.mem_singleton] at h1
                    subst h1
                    rw [hf] at hg
                    cases hg
                    exact le_of_not_lt hlt
          · have hnq : ¬qualifies targets p := by simp [qualifies, hp, hf, ht]
            have hstep : maxStep targets acc p = acc := by simp [maxStep, hp, hf, ht]
            rw [hstep]
            exact maxAccOk_extend_nonqual targets seen acc p hnq h

lemma maxAccOk_fold (targets : List String) :
    ∀ (pops seen : List PopEntry) (acc : Option ℚ × Option String),
      maxAccOk targets seen acc →
      maxAccOk targets (seen ++ pops) (pops.foldl (maxStep targets) acc) := by
  intro pops
  induction pops with
  | nil => intro seen acc h; simpa using h
  | cons p ps ih =>
      intro seen acc h
      have hstep := maxAccOk_step targets seen acc p h
      have := ih (seen ++ [p]) (maxStep targets acc p) hstep
      simpa [List.append_assoc] using this

lemma selectMaxFreq_accOk (targets : List String) (pops : List PopEntry) :
    maxAccOk targets pops (selectMaxFreq targets pops) := by
  have := maxAccOk_fold targets pops [] (Option.none, Option.none)
    (Or.inl ⟨rfl, by simp⟩)
  simpa [selectMaxFreq] using this

/-- C3 counterexample: one observation with population "OTHER" (not a target)
and allele "A" equal to the minimal alternate.  The spec's §4.5 algorithm
falls back to its second, population-free pass and yields 0.5 (OTHER); the
code's resolver — which never looks at alleles and filters by exact
membership in the target list, with no second pass — yields "N/A". -/
theorem frequency_resolver_counterexample :
    resolveVariantData ["gnomADe:NFE"] (.dataObj [⟨some "OTHER", some (1 / 2)⟩]) =
      .na ∧
    resolveFrequencySpecModel ["gnomADe:NFE"] "A" [⟨"OTHER", "A", 1 / 2⟩] =
      .freq (1 / 2) "OTHER" ∧
    FreqResult.na ≠ FreqResult.freq (1 / 2) "OTHER" :=
  ⟨rfl, rfl, fun h => FreqResult.noConfusion h⟩

/-- C3 amended. The code's frequency resolution is a single pass that ignores
the reported allele entirely: an observation qualifies exactly when its
population name is literally a member of the target-population list and its
frequency is present; the result is "N/A" iff no observation qualifies, and
any returned value is the frequency of a qualifying observation that no other
qualifying observation exceeds.  There is no acceptance set, no substring
matching, and no second pass. -/
theorem frequency_resolver_single_pass (targets : List String) (pops : List PopEntry) :
    (resolveVariantData targets (.dataObj pops) = .na ↔
      ∀ p ∈ pops, ¬qualifies targets p) ∧
    (∀ (f : ℚ) (n : String), resolveVariantData targets (.dataObj pops) = .freq f n →
      (∃ p ∈ pops, p.population = some n ∧ p.frequency = some f ∧ qualifies targets p) ∧
      ∀ q ∈ pops, qualifies targets q → ∀ g, q.frequency = some g → g ≤ f) ∧
    resolveVariantData targets .missing = .na ∧
    resolveVariantData targets .na = .na := by
  have hacc := selectMaxFreq_accOk targets pops
  refine ⟨⟨?_, ?_⟩, ?_, rfl, rfl⟩
  · intro hna
    rcases hacc with ⟨hzero, hall⟩ | ⟨f, n, heq, hwit, hmax⟩
    · exact hall
    · exfalso
      rw [resolveVariantData, heq] at hna
      exact FreqResult.noConfusion hna
  · intro hall
    rcases hacc with ⟨hzero, _⟩ | ⟨f, n, heq, hwit, hmax⟩
    · rw [resolveVariantData, hzero]
    · obtain ⟨w, hw, _, _, hq⟩ := hwit
      exact absurd hq (hall w hw)
  · intro f n hfreq
    rcases hacc with ⟨hzero, hall⟩ | ⟨f2, n2, heq, hwit, hmax⟩
    · rw [resolveVariantData, hzero] at hfreq
      exact FreqResult.noConfusion hfreq
    · rw [resolveVariantData, heq] at hfreq
      cases hfreq
      exact ⟨hwit, hmax⟩

/-- C3 witness: the amended theorem applied to the spec's own §8 test vector —
`{pop "gnomADe:NFE", 0.10}` and `{pop "OTHER", 0.50}` with target
`gnomADe:NFE` select 0.10, because only the first observation qualifies. -/
theorem frequency_resolver_single_pass_witness :
    (∃ p ∈ [(⟨some "gnomADe:NFE", some (1 / 10)⟩ : PopEntry),
            ⟨some "OTHER", some (1 / 2)⟩],
      p.population = some "gnomADe:NFE" ∧ p.frequency = some (1 / 10) ∧
      qualifies ["gnomADe:NFE"] p) ∧
    ∀ q ∈ [(⟨some "gnomADe:NFE", some (1 / 10)⟩ : PopEntry),
           ⟨some "OTHER", some (1 / 2)⟩],
      qualifies ["gnomADe:NFE"] q → ∀ g, q.frequency = some g → g ≤ 1 / 10 :=
  (frequency_resolver_single_pass ["gnomADe:NFE"]
    [⟨some "gnomADe:NFE", some (1 / 10)⟩, ⟨some "OTHER", some (1 / 2)⟩]).2.1
    (1 / 10) "gnomADe:NFE" rfl

/-! ### C7: batch failure handling in the two stages -/

/-- C7 counterexample: a frequency-stage batch whose transport call yields no
data on every iteration (the `None` that `perform_rest_action` returns after
exhausting retryable attempts, cf. `performIter_all_retryable`) makes
`fetch_population_frequencies_batch` loop forever — the batch-fetch operation
never terminates, it is not "logged and skipped". -/
theorem fetch_frequencies_counterexample :
    fetchPopLoopDiverges (fun _ => .resp .none) := by
  intro fuel
  induction fuel with
  | zero => intro k; rfl
  | succ n ih =>
      intro k
      simpa [fetchPopLoop] using ih (k + 1)

/-- C7 amended. A VEP-stage batch whose transport call fails entirely is
skipped, its variants keeping their sentinel values, and the run still emits
every row; but in the frequency stage `fetch_population_frequencies_batch`
retries forever whenever every iteration yields an exception, `None`, or `{}`
— under an always-failing frequency service the loop never terminates, so
that stage's batch failure is not skipped-and-logged. -/
theorem batch_failure_skip_or_loop :
    (∀ oracle : Nat → FetchOutcome, (∀ k, emptyFetchOutcome (oracle k)) →
      fetchPopLoopDiverges oracle) ∧
    (∀ (records : List VariantRecord) (targets : List String) (i : Nat)
      (r : VariantRecord), records[i]? = some r →
      (process_vcf records [] [] targets).length = records.length ∧
      ∃ row : OutputRow, (process_vcf records [] [] targets)[i]? = some row ∧
        row.id = "." ∧ row.gene = "Intergenic" ∧ row.frequency = FreqResult.na) := by
  constructor
  · intro oracle hempty fuel
    induction fuel with
    | zero => intro k; rfl
    | succ n ih =>
        intro k
        have hk := hempty k
        cases hoc : oracle k with
        | exc => simpa [fetchPopLoop, hoc] using ih (k + 1)
        | resp r =>
            cases r with
            | none => simpa [fetchPopLoop, hoc] using ih (k + 1)
            | json v =>
                cases v with
                | obj fields =>
                    cases fields with
                    | nil => simpa [fetchPopLoop, hoc] using ih (k + 1)
                    | cons fld rest =>
                        rw [hoc] at hk
                        exact hk.elim
                | arr items => rw [hoc] at hk; exact hk.elim
                | str s => rw [hoc] at hk; exact hk.elim
                | num q => rw [hoc] at hk; exact hk.elim
                | null => rw [hoc] at hk; exact hk.elim
  · intro records targets i r hrec
    have hi : i < records.length := getElem?_some_lt hrec
    have hid : (List.replicate records.length ".").getD i "." = "." := by
      simp [List.getD_eq_getElem?_getD, List.getElem?_replicate_of_lt hi]
    have hgene :
        (List.replicate records.length "Intergenic").getD i "Intergenic" = "Intergenic" := by
      simp [List.getD_eq_getElem?_getD, List.getElem?_replicate_of_lt hi]
    refine ⟨emitRows_length records _ _ _,
      _, emitRows_getElem?_some records (List.replicate records.length ".")
        (List.replicate records.length "Intergenic") (buildFrequencies targets []) i r hrec,
      hid, hgene, ?_⟩
    rw [hid]
    simp

/-- C7 witness: the divergence applied to the concrete always-`{}` oracle
(observed for 5 iterations), and the skip behaviour applied to a concrete
one-record input. -/
theorem batch_failure_skip_or_loop_witness :
    fetchPopLoop (fun _ => .resp (.json (.obj []))) 5 0 = Option.none ∧
    (process_vcf [⟨"2", 7, "G", "C", some "30"⟩] [] [] []).length = 1 :=
  ⟨batch_failure_skip_or_loop.1 (fun _ => .resp (.json (.obj []))) (fun _ => trivial) 5 0,
   (batch_failure_skip_or_loop.2 [⟨"2", 7, "G", "C", some "30"⟩] [] 0
      ⟨"2", 7, "G", "C", some "30"⟩ rfl).1⟩

end VarAnnotator
